import Mathlib

/-!
# Verification of the POSIX (emulated) asynchronous I/O layer (`aio.c`)

Shallow embedding of the non-Windows branch of `src/utils/aio.c`:
the user-socket operations (`sp_usock_init` / `sp_usock_tune` /
`sp_usock_send` / `sp_usock_recv`), completion-port registration
(`sp_cp_register_usock`) and the emulated completion queue
(`sp_cp_post` / `sp_cp_wait`).

Machine integers are modelled as `Nat`/`Int`; the platform `send`/`recv`
system calls are modelled by passing their result (byte count, or `-1`
with an `errno` value) as an explicit argument; a fatal assertion
(`sp_assert` / `errno_assert`) is a distinguished outcome, since the
process aborts and nothing is returned to the caller.
-/

/-- The `errno` values the POSIX branch of `aio.c` inspects.  `other`
stands for any further platform error code. -/
inductive Errno where
  | eagain
  | ewouldblock
  | eintr
  | econnreset
  | epipe
  | econnrefused
  | etimedout
  | ehostunreach
  | enotconn
  | other (n : Nat)
deriving DecidableEq, Repr

/-- Result of a synchronous platform `send`/`recv` call: a nonnegative
byte count, or `-1` with `errno` set. -/
inductive SyscallResult where
  | bytes (n : Nat)
  | fail (e : Errno)
deriving DecidableEq, Repr

/-- Observable outcome of `sp_usock_send` / `sp_usock_recv`:
`success n` is a `0` return with `*len = n`; `error e` is a `-e` return;
`fatalAssert` means an `sp_assert`/`errno_assert` fired and the process
aborted (nothing is returned to the caller). -/
inductive IoOutcome where
  | success (nbytes : Nat)
  | error (e : Errno)
  | fatalAssert
deriving DecidableEq, Repr

/-- Model of `sp_usock_send`, POSIX branch (aio.c:507-552), as a function of the
requested length `len` (`*len` on entry) and of the platform `send`
result `r`.  Mirrors the source control flow: zero length returns
immediately; a full transfer succeeds; on a negative return the code
tests `errno != EAGAIN && errno != EWOULDBLOCK` and jumps to the
`async:` label (which is `sp_assert (0)`), otherwise falls through the
`EINTR` and `ECONNRESET`/`EPIPE` tests into `errno_assert (0)`; a
partial transfer also falls through to the `async:` label. -/
def sp_usock_send (len : Nat) (r : SyscallResult) : IoOutcome :=
  if len = 0 then .success 0
  else
    match r with
    | .bytes n =>
        if n = len then .success len
        else .fatalAssert
    | .fail e =>
        if e ≠ .eagain ∧ e ≠ .ewouldblock then .fatalAssert
        else if e = .eintr then .error .eintr
        else if e = .econnreset ∨ e = .epipe then .error .econnreset
        else .fatalAssert

/-- Model of `sp_usock_recv`, POSIX branch (aio.c:554-605), as a function of the
requested length, the `SP_USOCK_PARTIAL` bit of `flags` (`pflag`), and
the platform `recv` result.  Zero length returns immediately; a
full-length read succeeds; a positive short read succeeds iff the
partial flag is set; a zero-byte read is `-ECONNRESET`; on a negative
return, would-block jumps to the `async:` label (`sp_assert (0)`),
`EINTR` is returned as is, the five connection-failure errors are
normalised to `-ECONNRESET`, and anything else hits `errno_assert (0)`. -/
def sp_usock_recv (len : Nat) (pflag : Bool) (r : SyscallResult) : IoOutcome :=
  if len = 0 then .success 0
  else
    match r with
    | .bytes n =>
        if n = len then .success len
        else if 0 < n ∧ pflag then .success n
        else if n = 0 then .error .econnreset
        else .fatalAssert
    | .fail e =>
        if e = .eagain ∨ e = .ewouldblock then .fatalAssert
        else if e = .eintr then .error .eintr
        else if e = .econnreset ∨ e = .econnrefused ∨ e = .etimedout ∨
            e = .ehostunreach ∨ e = .enotconn then .error .econnreset
        else .fatalAssert

/-! ## Socket creation and tuning -/

/-- Value of `AF_INET` on Linux. -/
def AF_INET : Nat := 2
/-- Value of `AF_INET6` on Linux. -/
def AF_INET6 : Nat := 10
/-- Value of `SOCK_STREAM` on Linux. -/
def SOCK_STREAM : Nat := 1
/-- Value of `SOCK_CLOEXEC` on Linux (`02000000` octal). -/
def SOCK_CLOEXEC : Nat := 524288

/-- The fields of `struct sp_usock` the POSIX branch uses: the stored
domain/type/protocol and the completion-port back-reference `aio`
(a `struct sp_cp*`, modelled as an identifier; `none` is `NULL`). -/
structure SpUsock where
  domain : Nat
  type : Nat
  protocol : Nat
  aio : Option Nat
deriving DecidableEq, Repr

/-- The Nagle step of `sp_usock_tune` (aio.c:118-130): `TCP_NODELAY` is
set iff `(self->domain == AF_INET || self->domain == AF_INET6) &&
self->type == SOCK_STREAM`.  Returns whether the option is set. -/
def sp_usock_tune_nodelay (self : SpUsock) : Bool :=
  (self.domain == AF_INET || self.domain == AF_INET6) &&
    self.type == SOCK_STREAM

/-- Model of `sp_usock_init`, POSIX branch (aio.c:41-81), success path.
`cloexec` is `SOCK_CLOEXEC` when the platform defines it (`#ifdef
SOCK_CLOEXEC` makes the code run `type |= SOCK_CLOEXEC` before the
socket is opened and before `self->type = type` stores the value), and
`none` on platforms without it.  The handle itself is omitted; `aio` is
set to `NULL`; `sp_usock_tune` is then called on the stored fields. -/
def sp_usock_init (cloexec : Option Nat) (domain type protocol : Nat) : SpUsock :=
  let type := match cloexec with
    | some c => type ||| c
    | none => type
  { domain := domain, type := type, protocol := protocol, aio := none }

/-- Model of `sp_cp_register_usock`, POSIX branch (aio.c:450-454):
`sp_assert (!usock->aio); usock->aio = self;`.  `cp` identifies the
port; `none` models the fatal assertion firing. -/
def sp_cp_register_usock (usock : SpUsock) (cp : Nat) : Option SpUsock :=
  match usock.aio with
  | none => some { usock with aio := some cp }
  | some _ => none

/-! ## The emulated completion queue -/

/-- One `struct sp_cp_item`: operation code and opaque argument (the
`void*` argument is modelled as an identifier). -/
structure SpCpItem where
  op : Int
  arg : Nat
deriving DecidableEq, Repr, Inhabited

/-- The queue-related fields of `struct sp_cp` on the POSIX branch: the
circular buffer `items` with `capacity` and `head`/`tail` cursors, plus
the state of the eventfd wakeup object (`signaled`).  The mutex, the
poller and its handle are external and carry no queue state. -/
structure SpCp where
  capacity : Nat
  head : Nat
  tail : Nat
  items : List SpCpItem
  signaled : Bool
deriving DecidableEq, Repr

/-- Value of `SP_CP_INITIAL_CAPACITY` (aio.c:347). -/
def SP_CP_INITIAL_CAPACITY : Nat := 64

/-- Model of `sp_cp_init` (aio.c:349-362), queue part: capacity 64, cursors 0,
freshly allocated (uninitialised, modelled by `default`) items, and the
eventfd starts unsignalled. -/
def sp_cp_init : SpCp :=
  { capacity := SP_CP_INITIAL_CAPACITY
    head := 0
    tail := 0
    items := List.replicate SP_CP_INITIAL_CAPACITY default
    signaled := false }

/-- Model of `sp_cp_post` (aio.c:373-403).  Under the mutex: write the item at
`tail`; remember whether the queue was empty (`tail == head`); advance
`tail` modulo `capacity`; if the buffer became full (`head == tail`),
realloc to twice the capacity, `memcpy` the wrapped prefix
`items[0..tail)` to `items[capacity..capacity+tail)` (the tail of the
new region stays uninitialised, modelled by `default`), add the old
`capacity` to `tail` and double `capacity`; finally signal the eventfd
iff the queue was empty before the call. -/
def sp_cp_post (self : SpCp) (op : Int) (arg : Nat) : SpCp :=
  let items := self.items.set self.tail ⟨op, arg⟩
  let empty := self.tail = self.head
  let tail := (self.tail + 1) % self.capacity
  if self.head = tail then
    { capacity := self.capacity * 2
      head := self.head
      tail := tail + self.capacity
      items := items ++ items.take tail ++
        List.replicate (self.capacity - tail) default
      signaled := if empty then true else self.signaled }
  else
    { capacity := self.capacity
      head := self.head
      tail := tail
      items := items
      signaled := if empty then true else self.signaled }

/-- The head-pop step that `sp_cp_wait` (aio.c:405-448) performs under
the mutex at each of its two check sites: if `head != tail`, read the
item at `head`, advance `head` modulo `capacity`, and unsignal the
eventfd if the pop made the queue empty (`head == tail`); otherwise
report the queue empty. -/
def sp_cp_tryPop (self : SpCp) : Option (SpCpItem × SpCp) :=
  if self.head = self.tail then none
  else
    let item := self.items.getD self.head default
    let head := (self.head + 1) % self.capacity
    some (item,
      { self with
          head := head
          signaled := if head = self.tail then false else self.signaled })

/-- Outcome of the external `sp_poller_wait` call as `sp_cp_wait` uses
it: a readiness event (on the eventfd handle), `-ETIMEDOUT`, or
`-EINTR`. -/
inductive PollerResult where
  | event
  | timedout
  | intr
deriving DecidableEq, Repr

/-- Result of `sp_cp_wait`: a popped item, `-ETIMEDOUT`, or `-EINTR`. -/
inductive CpWaitOutcome where
  | got (item : SpCpItem)
  | timedout
  | intr
deriving DecidableEq, Repr

/-- Model of `sp_cp_wait` (aio.c:405-448) in a sequential setting: try to pop
under the lock; if the queue is empty, call the poller (`pr` is its
result): `-ETIMEDOUT` and `-EINTR` are passed through, and after a
genuine event the queue is re-checked under the lock — with no
interleaved producer the re-check finds the queue unchanged, so a
spurious wake-up is reported as `-ETIMEDOUT`. -/
def sp_cp_wait (self : SpCp) (pr : PollerResult) : CpWaitOutcome × SpCp :=
  match sp_cp_tryPop self with
  | some (item, s) => (.got item, s)
  | none =>
      match pr with
      | .timedout => (.timedout, self)
      | .intr => (.intr, self)
      | .event =>
          match sp_cp_tryPop self with
          | some (item, s) => (.got item, s)
          | none => (.timedout, self)

/-- Post a whole list of items in order (iterated `sp_cp_post`). -/
def sp_cp_postAll (s : SpCp) (l : List SpCpItem) : SpCp :=
  l.foldl (fun s e => sp_cp_post s e.op e.arg) s

/-- Call `sp_cp_wait` up to `n` times, collecting the popped items;
stop at the first non-item result. -/
def sp_cp_popN : Nat → SpCp → List SpCpItem
  | 0, _ => []
  | Nat.succ n, s =>
      match sp_cp_wait s .event with
      | (.got item, s1) => item :: sp_cp_popN n s1
      | _ => []

/-- One completion-port operation, for exercising interleavings:
a `post` with its payload, or a `wait` with its poller outcome. -/
inductive CpOp where
  | post (op : Int) (arg : Nat)
  | wait (pr : PollerResult)
deriving DecidableEq, Repr

/-- Apply one operation to the queue state. -/
def CpOp.apply (o : CpOp) (s : SpCp) : SpCp :=
  match o with
  | .post op arg => sp_cp_post s op arg
  | .wait pr => (sp_cp_wait s pr).2

/-- Run a sequence of operations from a starting state. -/
def runOps (ops : List CpOp) (s : SpCp) : SpCp :=
  ops.foldl (fun s o => o.apply s) s

/-! ## Abstraction: logical contents of the circular buffer -/

/-- The half-open slice `l[a..b)` of a list. -/
def listSlice (l : List α) (a b : Nat) : List α :=
  (l.drop a).take (b - a)

/-- The logical contents of the queue, oldest first: the stored events
from `head` (inclusive) to `tail` (exclusive), wrapping around the end
of the buffer when `tail < head`. -/
def SpCp.contents (self : SpCp) : List SpCpItem :=
  if self.head ≤ self.tail then
    listSlice self.items self.head self.tail
  else
    listSlice self.items self.head self.capacity ++
      listSlice self.items 0 self.tail

/-- Well-formedness of the queue representation: positive capacity,
cursors inside the buffer, and the buffer exactly `capacity` long. -/
def SpCp.WF (self : SpCp) : Prop :=
  0 < self.capacity ∧ self.head < self.capacity ∧
    self.tail < self.capacity ∧ self.items.length = self.capacity

/-- The eventfd invariant: the wakeup signal is raised exactly when the
queue is non-empty (together with representation well-formedness). -/
def SpCp.Inv (s : SpCp) : Prop :=
  s.WF ∧ (s.signaled = true ↔ ¬ s.head = s.tail)

/-- Sixty-five distinct completion events, enough to overflow the
initial capacity and force one doubling. -/
def growthWitnessItems : List SpCpItem :=
  (List.range 65).map fun i => ⟨Int.ofNat i, i⟩

theorem listSlice_getElem? (l : List α) (a b i : Nat) :
    (listSlice l a b)[i]? = if i < b - a then l[a + i]? else none := by
  simp [listSlice, List.getElem?_take, List.getElem?_drop]

theorem listSlice_length (l : List α) (a b : Nat) (hb : b ≤ l.length)
    (hab : a ≤ b) : (listSlice l a b).length = b - a := by
  simp [listSlice, List.length_take, List.length_drop]
  omega

theorem listSlice_self_eq_nil (l : List α) (a : Nat) : listSlice l a a = [] := by
  simp [listSlice]

theorem listSlice_set_last (l : List α) (e : α) (a b : Nat)
    (hab : a ≤ b) (hb : b < l.length) :
    listSlice (l.set b e) a (b + 1) = listSlice l a b ++ [e] := by
  apply List.ext_getElem?
  intro i
  have hlen : (listSlice l a b).length = b - a :=
    listSlice_length l a b (by omega) hab
  simp only [listSlice_getElem?, List.getElem?_append, hlen,
    List.getElem?_set, List.length_set, hb, if_true]
  split_ifs with h1 h2 h3 h4 h5
  · omega
  · have h : i - (b - a) = 0 := by omega
    rw [h]
    rfl
  · rfl
  · omega
  · omega
  · exact (List.getElem?_eq_none (by simp; omega)).symm

theorem listSlice_set_outside (l : List α) (e : α) (a b i : Nat)
    (h : i < a ∨ b ≤ i) : listSlice (l.set i e) a b = listSlice l a b := by
  apply List.ext_getElem?
  intro j
  rw [listSlice_getElem?, listSlice_getElem?, List.getElem?_set]
  split
  · split
    · omega
    · rfl
  · rfl

theorem listSlice_append_left (l m : List α) (a b : Nat)
    (hb : b ≤ l.length) : listSlice (l ++ m) a b = listSlice l a b := by
  apply List.ext_getElem?
  intro i
  simp only [listSlice_getElem?, List.getElem?_append]
  split_ifs with h1 h2
  · rfl
  · omega
  · rfl

theorem listSlice_append_shift (l m : List α) (a b : Nat) :
    listSlice (l ++ m) (l.length + a) (l.length + b) = listSlice m a b := by
  apply List.ext_getElem?
  intro i
  simp only [listSlice_getElem?, List.getElem?_append]
  have h1 : l.length + b - (l.length + a) = b - a := by omega
  have h2 : l.length + a + i - l.length = a + i := by omega
  rw [h1, h2]
  split_ifs with h3 h4
  · omega
  · rfl
  · rfl

theorem listSlice_cons_head (l : List α) (a b : Nat) (d : α)
    (hab : a < b) (ha : a < l.length) :
    listSlice l a b = l.getD a d :: listSlice l (a + 1) b := by
  apply List.ext_getElem?
  intro i
  rw [listSlice_getElem?]
  cases i with
  | zero =>
      rw [if_pos (by omega)]
      simp [List.getD_eq_getElem?_getD, List.getElem?_eq_getElem ha]
  | succ j =>
      simp only [List.getElem?_cons_succ, listSlice_getElem?]
      split
      · split
        · congr 1
          omega
        · omega
      · rw [if_neg (by omega)]

theorem listSlice_zero_eq_take (l : List α) (b : Nat) :
    listSlice l 0 b = l.take b := by
  simp [listSlice]

theorem listSlice_full (l : List α) : listSlice l 0 l.length = l := by
  simp [listSlice]

theorem listSlice_append_split (l m : List α) (a b : Nat)
    (ha : a ≤ l.length) (hb : l.length ≤ b) :
    listSlice (l ++ m) a b =
      listSlice l a l.length ++ listSlice m 0 (b - l.length) := by
  apply List.ext_getElem?
  intro i
  have hlen : (listSlice l a l.length).length = l.length - a :=
    listSlice_length l a l.length le_rfl ha
  simp only [listSlice_getElem?, List.getElem?_append, hlen, Nat.sub_zero,
    Nat.zero_add]
  by_cases h1 : i < l.length - a
  · rw [if_pos (show i < b - a by omega), if_pos (show a + i < l.length by omega),
      if_pos h1, if_pos h1]
  · rw [if_neg h1]
    by_cases h2 : i < b - a
    · rw [if_pos h2, if_neg (show ¬ a + i < l.length by omega),
        if_pos (show i - (l.length - a) < b - l.length by omega)]
      congr 1
      omega
    · rw [if_neg h2, if_neg (show ¬ i - (l.length - a) < b - l.length by omega)]

theorem listSlice_zero_take_self (l : List α) (b : Nat) :
    listSlice (l.take b) 0 b = l.take b := by
  simp [listSlice, List.take_take]

/-! ## Queue lemmas -/

theorem sp_cp_post_eq_double (c h t : Nat) (l : List SpCpItem) (sig : Bool)
    (op : Int) (arg : Nat) (hfull : h = (t + 1) % c) :
    sp_cp_post ⟨c, h, t, l, sig⟩ op arg =
      ⟨c * 2, h, (t + 1) % c + c,
        l.set t ⟨op, arg⟩ ++ (l.set t ⟨op, arg⟩).take ((t + 1) % c) ++
          List.replicate (c - (t + 1) % c) default,
        if t = h then true else sig⟩ := by
  simp only [sp_cp_post]
  rw [if_pos hfull]

theorem sp_cp_post_eq_simple (c h t : Nat) (l : List SpCpItem) (sig : Bool)
    (op : Int) (arg : Nat) (hfull : ¬ h = (t + 1) % c) :
    sp_cp_post ⟨c, h, t, l, sig⟩ op arg =
      ⟨c, h, (t + 1) % c, l.set t ⟨op, arg⟩,
        if t = h then true else sig⟩ := by
  simp only [sp_cp_post]
  rw [if_neg hfull]

theorem SpCp.contents_le (c h t : Nat) (l : List SpCpItem) (sig : Bool)
    (hle : h ≤ t) :
    SpCp.contents ⟨c, h, t, l, sig⟩ = listSlice l h t := by
  simp [SpCp.contents, hle]

theorem SpCp.contents_gt (c h t : Nat) (l : List SpCpItem) (sig : Bool)
    (hgt : ¬ h ≤ t) :
    SpCp.contents ⟨c, h, t, l, sig⟩ =
      listSlice l h c ++ listSlice l 0 t := by
  simp [SpCp.contents, hgt]

theorem sp_cp_post_WF (s : SpCp) (op : Int) (arg : Nat) (hwf : s.WF) :
    (sp_cp_post s op arg).WF := by
  obtain ⟨hc, hh, ht, hl⟩ := hwf
  rcases s with ⟨c, h, t, l, sig⟩
  simp only at hc hh ht hl
  have hm : (t + 1) % c < c := Nat.mod_lt _ hc
  by_cases hfull : h = (t + 1) % c
  · rw [sp_cp_post_eq_double c h t l sig op arg hfull]
    unfold SpCp.WF
    dsimp only
    refine ⟨by omega, by omega, by omega, ?_⟩
    simp only [List.length_append, List.length_set, List.length_take,
      List.length_replicate, hl]
    omega
  · rw [sp_cp_post_eq_simple c h t l sig op arg hfull]
    exact ⟨hc, hh, hm, by simp [hl]⟩

theorem sp_cp_post_contents (s : SpCp) (op : Int) (arg : Nat) (hwf : s.WF) :
    (sp_cp_post s op arg).contents = s.contents ++ [⟨op, arg⟩] := by
  obtain ⟨hc, hh, ht, hl⟩ := hwf
  rcases s with ⟨c, h, t, l, sig⟩
  simp only at hc hh ht hl
  by_cases h1 : t + 1 < c
  · -- the tail cursor does not wrap
    have hmod : (t + 1) % c = t + 1 := Nat.mod_eq_of_lt h1
    by_cases h2 : h ≤ t
    · -- contiguous region; h ≤ t < t + 1, so no doubling
      rw [sp_cp_post_eq_simple c h t l sig op arg (by rw [hmod]; omega), hmod,
        SpCp.contents_le c h (t + 1) _ _ (by omega),
        SpCp.contents_le c h t l sig h2,
        listSlice_set_last l ⟨op, arg⟩ h t h2 (by omega)]
    · by_cases h3 : h = t + 1
      · -- buffer became full: capacity doubles, wrapped prefix linearized
        subst h3
        rw [sp_cp_post_eq_double c (t + 1) t l sig op arg (by rw [hmod]), hmod,
          SpCp.contents_le (c * 2) (t + 1) (t + 1 + c) _ _ (by omega),
          SpCp.contents_gt c (t + 1) t l sig (by omega)]
        have hlen2 : ((l.set t ⟨op, arg⟩) ++
            (l.set t ⟨op, arg⟩).take (t + 1)).length = c + (t + 1) := by
          simp [hl]
          omega
        rw [listSlice_append_left ((l.set t ⟨op, arg⟩) ++
              (l.set t ⟨op, arg⟩).take (t + 1))
            (List.replicate (c - (t + 1)) default) (t + 1) (t + 1 + c)
            (by rw [hlen2]; omega),
          listSlice_append_split (l.set t ⟨op, arg⟩)
            ((l.set t ⟨op, arg⟩).take (t + 1)) (t + 1) (t + 1 + c)
            (by simp only [List.length_set, hl]; omega)
            (by simp only [List.length_set, hl]; omega),
          show (l.set t ⟨op, arg⟩).length = c from by simp [hl],
          show t + 1 + c - c = t + 1 from by omega,
          listSlice_zero_take_self (l.set t ⟨op, arg⟩) (t + 1),
          ← listSlice_zero_eq_take (l.set t ⟨op, arg⟩) (t + 1),
          listSlice_set_outside l ⟨op, arg⟩ (t + 1) c t (Or.inl (by omega)),
          listSlice_set_last l ⟨op, arg⟩ 0 t (by omega) (by omega),
          ← List.append_assoc]
      · -- wrapped region stays wrapped, no doubling
        rw [sp_cp_post_eq_simple c h t l sig op arg (by rw [hmod]; omega), hmod,
          SpCp.contents_gt c h (t + 1) _ _ (by omega),
          SpCp.contents_gt c h t l sig (by omega),
          listSlice_set_outside l ⟨op, arg⟩ h c t (Or.inl (by omega)),
          listSlice_set_last l ⟨op, arg⟩ 0 t (by omega) (by omega),
          ← List.append_assoc]
  · -- the tail cursor wraps to 0
    have hteq : t + 1 = c := by omega
    have hmod : (t + 1) % c = 0 := by rw [hteq, Nat.mod_self]
    have h2 : h ≤ t := by omega
    by_cases h3 : h = 0
    · -- buffer became full with h = 0: doubling, nothing wrapped yet
      subst h3
      rw [sp_cp_post_eq_double c 0 t l sig op arg (by rw [hmod]), hmod,
        SpCp.contents_le (c * 2) 0 (0 + c) _ _ (by omega),
        SpCp.contents_le c 0 t l sig h2]
      simp only [List.take_zero, List.append_nil, Nat.sub_zero, Nat.zero_add]
      rw [listSlice_append_left _ _ 0 c (by simp [hl]), ← hteq,
        listSlice_set_last l ⟨op, arg⟩ 0 t (by omega) (by omega)]
    · -- tail wraps to 0, head nonzero: no doubling
      rw [sp_cp_post_eq_simple c h t l sig op arg (by rw [hmod]; omega), hmod,
        SpCp.contents_gt c h 0 _ _ (by omega),
        SpCp.contents_le c h t l sig h2,
        listSlice_self_eq_nil, List.append_nil, ← hteq,
        listSlice_set_last l ⟨op, arg⟩ h t h2 (by omega)]

theorem sp_cp_tryPop_eq_none (s : SpCp) (h : s.head = s.tail) :
    sp_cp_tryPop s = none := by
  simp [sp_cp_tryPop, h]

theorem sp_cp_tryPop_eq_some (s : SpCp) (h : ¬ s.head = s.tail) :
    sp_cp_tryPop s = some (s.items.getD s.head default,
      { s with
          head := (s.head + 1) % s.capacity
          signaled := if (s.head + 1) % s.capacity = s.tail then false
            else s.signaled }) := by
  simp [sp_cp_tryPop, h]

theorem sp_cp_contents_nil_iff (s : SpCp) (hwf : s.WF) :
    s.contents = [] ↔ s.head = s.tail := by
  obtain ⟨hc, hh, ht, hl⟩ := hwf
  rcases s with ⟨c, h, t, l, sig⟩
  simp only at hc hh ht hl
  constructor
  · intro hnil
    by_contra hne
    simp only at hne
    by_cases h2 : h ≤ t
    · rw [SpCp.contents_le c h t l sig h2] at hnil
      have := listSlice_length l h t (by omega) h2
      rw [hnil] at this
      simp at this
      omega
    · rw [SpCp.contents_gt c h t l sig h2] at hnil
      have h3 := List.append_eq_nil.mp hnil
      have := listSlice_length l h c (by omega) (by omega)
      rw [h3.1] at this
      simp at this
      omega
  · intro he
    simp only at he
    subst he
    rw [SpCp.contents_le c h h l sig le_rfl, listSlice_self_eq_nil]

theorem sp_cp_contents_head (s : SpCp) (hwf : s.WF)
    (hne : ¬ s.head = s.tail) :
    ∃ rest, s.contents = s.items.getD s.head default :: rest := by
  obtain ⟨hc, hh, ht, hl⟩ := hwf
  rcases s with ⟨c, h, t, l, sig⟩
  simp only at hc hh ht hl hne ⊢
  by_cases h2 : h ≤ t
  · refine ⟨listSlice l (h + 1) t, ?_⟩
    rw [SpCp.contents_le c h t l sig h2]
    exact listSlice_cons_head l h t default (by omega) (by omega)
  · refine ⟨listSlice l (h + 1) c ++ listSlice l 0 t, ?_⟩
    rw [SpCp.contents_gt c h t l sig h2,
      listSlice_cons_head l h c default (by omega) (by omega)]
    rfl

theorem sp_cp_pop_contents (s : SpCp) (hwf : s.WF)
    (hne : ¬ s.head = s.tail) :
    SpCp.contents
        { s with
            head := (s.head + 1) % s.capacity
            signaled := if (s.head + 1) % s.capacity = s.tail then false
              else s.signaled } = s.contents.tail := by
  obtain ⟨hc, hh, ht, hl⟩ := hwf
  rcases s with ⟨c, h, t, l, sig⟩
  simp only at hc hh ht hl hne ⊢
  by_cases h2 : h ≤ t
  · -- h < t: contiguous, head advances without wrapping
    have hlt : h < t := by omega
    have hmod : (h + 1) % c = h + 1 := Nat.mod_eq_of_lt (by omega)
    rw [SpCp.contents_le c h t l sig h2]
    simp only [hmod]
    rw [SpCp.contents_le c (h + 1) t l _ (by omega),
      listSlice_cons_head l h t default hlt (by omega)]
    rfl
  · -- h > t: wrapped region
    by_cases h3 : h + 1 < c
    · have hmod : (h + 1) % c = h + 1 := Nat.mod_eq_of_lt h3
      rw [SpCp.contents_gt c h t l sig h2]
      simp only [hmod]
      rw [SpCp.contents_gt c (h + 1) t l _ (by omega),
        listSlice_cons_head l h c default (by omega) (by omega)]
      rfl
    · -- h + 1 = c: head wraps to 0
      have hceq : h + 1 = c := by omega
      have hmod : (h + 1) % c = 0 := by rw [hceq, Nat.mod_self]
      rw [SpCp.contents_gt c h t l sig h2]
      simp only [hmod]
      rw [SpCp.contents_le c 0 t l _ (by omega),
        listSlice_cons_head l h c default (by omega) (by omega),
        show listSlice l (h + 1) c = [] from by
          rw [hceq]; exact listSlice_self_eq_nil l c]
      rfl

theorem sp_cp_pop_WF (s : SpCp) (hwf : s.WF) :
    SpCp.WF
      { s with
          head := (s.head + 1) % s.capacity
          signaled := if (s.head + 1) % s.capacity = s.tail then false
            else s.signaled } := by
  obtain ⟨hc, hh, ht, hl⟩ := hwf
  exact ⟨hc, Nat.mod_lt _ hc, ht, hl⟩

theorem sp_cp_init_WF : sp_cp_init.WF := by
  refine ⟨?_, ?_, ?_, ?_⟩ <;>
    simp [sp_cp_init, SpCp.WF, SP_CP_INITIAL_CAPACITY]

theorem sp_cp_init_Inv : sp_cp_init.Inv := by
  refine ⟨sp_cp_init_WF, ?_⟩
  simp [sp_cp_init]

theorem sp_cp_init_contents : sp_cp_init.contents = [] := by
  simp [sp_cp_init, SpCp.contents, listSlice]

theorem sp_cp_post_Inv (s : SpCp) (op : Int) (arg : Nat) (hinv : s.Inv) :
    (sp_cp_post s op arg).Inv := by
  obtain ⟨hwf, hsig⟩ := hinv
  refine ⟨sp_cp_post_WF s op arg hwf, ?_⟩
  obtain ⟨hc, hh, ht, hl⟩ := hwf
  rcases s with ⟨c, h, t, l, sig⟩
  simp only at hc hh ht hl hsig
  by_cases hfull : h = (t + 1) % c
  · rw [sp_cp_post_eq_double c h t l sig op arg hfull]
    dsimp only
    have hm : (t + 1) % c < c := Nat.mod_lt _ hc
    constructor
    · intro _
      omega
    · intro _
      by_cases hempty : t = h
      · simp [hempty]
      · simp only [if_neg hempty]
        exact hsig.mpr (fun he => hempty he.symm)
  · rw [sp_cp_post_eq_simple c h t l sig op arg hfull]
    dsimp only
    constructor
    · intro _
      exact hfull
    · intro _
      by_cases hempty : t = h
      · simp [hempty]
      · simp only [if_neg hempty]
        exact hsig.mpr (fun he => hempty he.symm)

theorem sp_cp_tryPop_Inv (s : SpCp) (hinv : s.Inv) :
    ∀ e s', sp_cp_tryPop s = some (e, s') → s'.Inv := by
  obtain ⟨hwf, hsig⟩ := hinv
  intro e s' hpop
  by_cases hne : s.head = s.tail
  · rw [sp_cp_tryPop_eq_none s hne] at hpop
    exact absurd hpop (by simp)
  · rw [sp_cp_tryPop_eq_some s hne] at hpop
    injection hpop with hpair
    injection hpair with hitem hstate
    subst hstate
    refine ⟨sp_cp_pop_WF s hwf, ?_⟩
    dsimp only
    by_cases hend : (s.head + 1) % s.capacity = s.tail
    · simp [hend]
    · simp only [if_neg hend]
      constructor
      · intro _
        exact hend
      · intro _
        exact hsig.mpr hne

theorem sp_cp_wait_snd_Inv (s : SpCp) (pr : PollerResult) (hinv : s.Inv) :
    ((sp_cp_wait s pr).2).Inv := by
  rcases heq : sp_cp_tryPop s with - | ⟨e, s'⟩
  · have : (sp_cp_wait s pr).2 = s := by
      cases pr <;> simp [sp_cp_wait, heq]
    rw [this]
    exact hinv
  · have : (sp_cp_wait s pr).2 = s' := by
      simp [sp_cp_wait, heq]
    rw [this]
    exact sp_cp_tryPop_Inv s hinv e s' heq

theorem CpOp_apply_Inv (o : CpOp) (s : SpCp) (hinv : s.Inv) :
    (o.apply s).Inv := by
  cases o with
  | post op arg => exact sp_cp_post_Inv s op arg hinv
  | wait pr => exact sp_cp_wait_snd_Inv s pr hinv

theorem runOps_Inv (ops : List CpOp) : (runOps ops sp_cp_init).Inv := by
  suffices h : ∀ s : SpCp, s.Inv → (runOps ops s).Inv from
    h sp_cp_init sp_cp_init_Inv
  induction ops with
  | nil => exact fun s hs => hs
  | cons o rest ih =>
      intro s hs
      have h1 : runOps (o :: rest) s = runOps rest (o.apply s) := by
        simp [runOps]
      rw [h1]
      exact ih (o.apply s) (CpOp_apply_Inv o s hs)

theorem sp_cp_wait_got (s s' : SpCp) (e : SpCpItem) (pr : PollerResult)
    (h : sp_cp_tryPop s = some (e, s')) :
    sp_cp_wait s pr = (.got e, s') := by
  simp [sp_cp_wait, h]

theorem sp_cp_popN_of_tryPop_none (n : Nat) (s : SpCp)
    (h : sp_cp_tryPop s = none) : sp_cp_popN n s = [] := by
  cases n with
  | zero => rfl
  | succ m => simp [sp_cp_popN, sp_cp_wait, h]

theorem sp_cp_popN_of_tryPop_some (n : Nat) (s s' : SpCp) (e : SpCpItem)
    (h : sp_cp_tryPop s = some (e, s')) :
    sp_cp_popN (n + 1) s = e :: sp_cp_popN n s' := by
  simp [sp_cp_popN, sp_cp_wait_got s s' e .event h]

/-- Popping one event from a non-empty well-formed queue yields the
head of the logical contents and removes it, touching nothing else. -/
theorem sp_cp_tryPop_spec (s : SpCp) (e : SpCpItem) (rest : List SpCpItem)
    (hwf : s.WF) (hcont : s.contents = e :: rest) :
    ∃ s', sp_cp_tryPop s = some (e, s') ∧ s'.contents = rest ∧ s'.WF := by
  have hne : ¬ s.head = s.tail := by
    intro h
    rw [(sp_cp_contents_nil_iff s hwf).mpr h] at hcont
    exact List.cons_ne_nil e rest hcont.symm
  obtain ⟨rest', hhead⟩ := sp_cp_contents_head s hwf hne
  rw [hcont] at hhead
  injection hhead with he _
  refine ⟨_, ?_, ?_, sp_cp_pop_WF s hwf⟩
  · rw [sp_cp_tryPop_eq_some s hne, he]
  · rw [sp_cp_pop_contents s hwf hne, hcont]
    rfl

theorem sp_cp_drain (m : List SpCpItem) : ∀ (k : Nat) (s : SpCp),
    s.WF → s.contents = m → sp_cp_popN (m.length + k) s = m := by
  induction m with
  | nil =>
      intro k s hwf hcont
      exact sp_cp_popN_of_tryPop_none _ s
        (sp_cp_tryPop_eq_none s ((sp_cp_contents_nil_iff s hwf).mp hcont))
  | cons e rest ih =>
      intro k s hwf hcont
      obtain ⟨s', hpop, hcont', hwf'⟩ := sp_cp_tryPop_spec s e rest hwf hcont
      have harith : (e :: rest).length + k = (rest.length + k) + 1 := by
        simp [List.length_cons]
        omega
      rw [harith, sp_cp_popN_of_tryPop_some _ s s' e hpop,
        ih k s' hwf' hcont']

theorem sp_cp_postAll_spec (l : List SpCpItem) : ∀ s : SpCp, s.WF →
    (sp_cp_postAll s l).WF ∧
      (sp_cp_postAll s l).contents = s.contents ++ l := by
  induction l with
  | nil =>
      intro s hwf
      exact ⟨hwf, by simp [sp_cp_postAll]⟩
  | cons e rest ih =>
      intro s hwf
      have h1 := sp_cp_post_WF s e.op e.arg hwf
      have h2 := sp_cp_post_contents s e.op e.arg hwf
      have hstep : sp_cp_postAll s (e :: rest) =
          sp_cp_postAll (sp_cp_post s e.op e.arg) rest := by
        simp [sp_cp_postAll]
      obtain ⟨hwf', hcont'⟩ := ih (sp_cp_post s e.op e.arg) h1
      refine ⟨by rw [hstep]; exact hwf', ?_⟩
      rw [hstep, hcont', h2, List.append_assoc]
      rfl

/-- FIFO drain from the initial state: after posting `l`, `l.length`
wait calls (with any surplus budget `k`) return exactly `l`. -/
theorem sp_cp_fifo (l : List SpCpItem) (k : Nat) :
    sp_cp_popN (l.length + k) (sp_cp_postAll sp_cp_init l) = l := by
  obtain ⟨hwf, hcont⟩ := sp_cp_postAll_spec l sp_cp_init sp_cp_init_WF
  rw [sp_cp_init_contents] at hcont
  simp only [List.nil_append] at hcont
  exact sp_cp_drain l k _ hwf hcont

/-- Under well-formedness the queue holds fewer items than its
capacity. -/
theorem sp_cp_contents_length_lt (s : SpCp) (hwf : s.WF) :
    s.contents.length < s.capacity := by
  obtain ⟨hc, hh, ht, hl⟩ := hwf
  rcases s with ⟨c, h, t, l, sig⟩
  simp only at hc hh ht hl ⊢
  by_cases h2 : h ≤ t
  · rw [SpCp.contents_le c h t l sig h2,
      listSlice_length l h t (by omega) h2]
    omega
  · rw [SpCp.contents_gt c h t l sig h2, List.length_append,
      listSlice_length l h c (by omega) (by omega),
      listSlice_length l 0 t (by omega) (by omega)]
    omega

/-! ## Claims -/

/-- Claim C1 (refuted; code bug).  The claim says a failed synchronous
`send` with any error other than would-block returns a translated error
code, in particular `-ECONNRESET` for `ECONNRESET`/`EPIPE`.  In the code
the would-block test at aio.c:530 is inverted (`!=` and `&&` where the
matching `recv` at aio.c:582 uses `==` and `||`), so every error other
than `EAGAIN`/`EWOULDBLOCK` jumps to the `async:` label and dies on
`sp_assert (0)` (aio.c:550); the `return -EINTR` and `return
-ECONNRESET` statements at aio.c:538/542 are unreachable, and a
would-block error falls through to `errno_assert (0)` (aio.c:545).
This theorem evaluates the model at the failing inputs. -/
theorem c1_send_error_hits_assert :
    sp_usock_send 1 (.fail .econnreset) = .fatalAssert ∧
      sp_usock_send 1 (.fail .epipe) = .fatalAssert ∧
      sp_usock_send 1 (.fail .eintr) = .fatalAssert := by
  refine ⟨by decide, by decide, by decide⟩

/-- Claim C2 (refuted; code bug).  The claim says every socket created
by `sp_usock_init` with an IP domain and `SOCK_STREAM` type gets
`TCP_NODELAY` set.  On a platform that defines `SOCK_CLOEXEC` (e.g.
Linux) the code ORs `SOCK_CLOEXEC` into `type` (aio.c:50) before
storing `self->type = type` (aio.c:63), so the Nagle condition
`self->type == SOCK_STREAM` (aio.c:121) is false and `TCP_NODELAY` is
never set; without `SOCK_CLOEXEC` the same call does set it. -/
theorem c2_cloexec_defeats_nodelay :
    sp_usock_tune_nodelay
        (sp_usock_init (some SOCK_CLOEXEC) AF_INET SOCK_STREAM 6) = false ∧
      sp_usock_tune_nodelay
        (sp_usock_init none AF_INET SOCK_STREAM 6) = true := by
  refine ⟨by decide, by decide⟩

/-- Claim C3 (confirmed).  Posting more events than the initial
capacity of 64 loses nothing and keeps FIFO order: for any sequence of
more than 64 posts into a fresh queue, draining returns exactly the
posted sequence, and the capacity has grown past 64 (the doubling step
linearized the wrapped region). -/
theorem c3_growth_preserves_fifo (l : List SpCpItem) (h64 : 64 < l.length) :
    sp_cp_popN l.length (sp_cp_postAll sp_cp_init l) = l ∧
      64 < (sp_cp_postAll sp_cp_init l).capacity := by
  constructor
  · have h := sp_cp_fifo l 0
    simpa using h
  · obtain ⟨hwf, hcont⟩ := sp_cp_postAll_spec l sp_cp_init sp_cp_init_WF
    have hlt := sp_cp_contents_length_lt _ hwf
    rw [hcont, sp_cp_init_contents] at hlt
    simp only [List.nil_append] at hlt
    omega

/-- Witness for C3 at a concrete 65-event sequence. -/
theorem c3_witness :
    64 < growthWitnessItems.length ∧
      (sp_cp_popN growthWitnessItems.length
          (sp_cp_postAll sp_cp_init growthWitnessItems) =
            growthWitnessItems ∧
        64 < (sp_cp_postAll sp_cp_init growthWitnessItems).capacity) :=
  ⟨by decide, c3_growth_preserves_fifo growthWitnessItems (by decide)⟩

/-- Claim C4 (confirmed).  FIFO delivery: after a sequence of posts
P1..Pn into a fresh queue, successive `sp_cp_wait` calls return the
posted `(op, arg)` pairs in exactly the order P1..Pn, each consumed
exactly once — any surplus wait budget `k` past `n` yields nothing
further. -/
theorem c4_fifo_order (l : List SpCpItem) (k : Nat) :
    sp_cp_popN (l.length + k) (sp_cp_postAll sp_cp_init l) = l :=
  sp_cp_fifo l k

/-- Witness for C4 at a concrete three-event sequence with surplus
budget. -/
theorem c4_witness :
    sp_cp_popN (([⟨1, 10⟩, ⟨2, 20⟩, ⟨3, 30⟩] : List SpCpItem).length + 2)
        (sp_cp_postAll sp_cp_init [⟨1, 10⟩, ⟨2, 20⟩, ⟨3, 30⟩]) =
      [⟨1, 10⟩, ⟨2, 20⟩, ⟨3, 30⟩] :=
  c4_fifo_order [⟨1, 10⟩, ⟨2, 20⟩, ⟨3, 30⟩] 2

/-- Claim C5 (confirmed).  In every state reachable from a fresh queue
by any interleaving of `post` and `wait` operations, the eventfd is
signalled iff the queue is non-empty (`head ≠ tail`); moreover a
further `post` always leaves the signal raised (it raises it exactly on
the empty-to-non-empty transition), and a pop preserves the iff (it
lowers the signal exactly when the pop empties the queue). -/
theorem c5_signal_iff_nonempty (ops : List CpOp) (op : Int) (arg : Nat) :
    ((runOps ops sp_cp_init).signaled = true ↔
        ¬ (runOps ops sp_cp_init).head = (runOps ops sp_cp_init).tail) ∧
      (sp_cp_post (runOps ops sp_cp_init) op arg).signaled = true ∧
      (∀ e s', sp_cp_tryPop (runOps ops sp_cp_init) = some (e, s') →
        (s'.signaled = true ↔ ¬ s'.head = s'.tail)) := by
  have hinv := runOps_Inv ops
  refine ⟨hinv.2, ?_, ?_⟩
  · have hpinv := sp_cp_post_Inv _ op arg hinv
    refine hpinv.2.mpr ?_
    intro hempty
    have hnil := (sp_cp_contents_nil_iff _ hpinv.1).mpr hempty
    rw [sp_cp_post_contents _ op arg hinv.1] at hnil
    simp at hnil
  · intro e s' hpop
    exact (sp_cp_tryPop_Inv _ hinv e s' hpop).2

/-- Witness for C5 at a concrete interleaving. -/
theorem c5_witness :
    ((runOps [CpOp.post 1 2, CpOp.wait .event, CpOp.post 3 4]
          sp_cp_init).signaled = true ↔
        ¬ (runOps [CpOp.post 1 2, CpOp.wait .event, CpOp.post 3 4]
            sp_cp_init).head =
          (runOps [CpOp.post 1 2, CpOp.wait .event, CpOp.post 3 4]
            sp_cp_init).tail) ∧
      (sp_cp_post (runOps [CpOp.post 1 2, CpOp.wait .event, CpOp.post 3 4]
          sp_cp_init) 5 6).signaled = true ∧
      (∀ e s',
        sp_cp_tryPop (runOps [CpOp.post 1 2, CpOp.wait .event, CpOp.post 3 4]
          sp_cp_init) = some (e, s') →
        (s'.signaled = true ↔ ¬ s'.head = s'.tail)) :=
  c5_signal_iff_nonempty [CpOp.post 1 2, CpOp.wait .event, CpOp.post 3 4] 5 6

/-- Claim C6 (confirmed).  For a positive requested length, a zero-byte
synchronous read is reported as `-ECONNRESET` (peer closed), and each
of the five recognised connection-fatal errors (`ECONNRESET`,
`ECONNREFUSED`, `ETIMEDOUT`, `EHOSTUNREACH`, `ENOTCONN`) is normalised
to the single `-ECONNRESET` result. -/
theorem c6_recv_fatal_errors_normalised (len : Nat) (pflag : Bool)
    (e : Errno) (hlen : 0 < len)
    (he : e = .econnreset ∨ e = .econnrefused ∨ e = .etimedout ∨
      e = .ehostunreach ∨ e = .enotconn) :
    sp_usock_recv len pflag (.bytes 0) = .error .econnreset ∧
      sp_usock_recv len pflag (.fail e) = .error .econnreset := by
  have h0 : ¬ len = 0 := by omega
  constructor
  · simp [sp_usock_recv, h0, Nat.ne_of_lt hlen]
  · rcases he with rfl | rfl | rfl | rfl | rfl <;>
      simp [sp_usock_recv, h0]

/-- Witness for C6 at length 4 and error `ETIMEDOUT`. -/
theorem c6_witness :
    (0 < 4 ∧
      (Errno.etimedout = .econnreset ∨ Errno.etimedout = .econnrefused ∨
        Errno.etimedout = .etimedout ∨ Errno.etimedout = .ehostunreach ∨
        Errno.etimedout = .enotconn)) ∧
      sp_usock_recv 4 false (.bytes 0) = .error .econnreset ∧
      sp_usock_recv 4 false (.fail .etimedout) = .error .econnreset :=
  ⟨⟨by decide, by decide⟩,
    c6_recv_fatal_errors_normalised 4 false .etimedout (by decide) (by decide)⟩

/-- Claim C7 (confirmed).  A zero-length `send` or `recv` succeeds
immediately with zero bytes transferred, and the outcome does not
depend on the platform call result at all (the platform `send`/`recv`
is never reached). -/
theorem c7_zero_length_noop (r : SyscallResult) (pflag : Bool) :
    sp_usock_send 0 r = .success 0 ∧ sp_usock_recv 0 pflag r = .success 0 :=
  ⟨rfl, rfl⟩

/-- Witness for C7 at an arbitrary failing platform result. -/
theorem c7_witness :
    sp_usock_send 0 (.fail .econnreset) = .success 0 ∧
      sp_usock_recv 0 true (.fail .econnreset) = .success 0 :=
  c7_zero_length_noop (.fail .econnreset) true

/-- Claim C8 (confirmed).  Registration succeeds exactly for a socket
whose completion-port back-reference is unset, setting the
back-reference; registering an already-registered socket triggers the
fatal assertion (the back-reference is set at most once). -/
theorem c8_register_at_most_once (u : SpUsock) (cp : Nat) :
    (u.aio = none →
      sp_cp_register_usock u cp = some { u with aio := some cp }) ∧
      (∀ p, u.aio = some p → sp_cp_register_usock u cp = none) := by
  constructor
  · intro h
    simp [sp_cp_register_usock, h]
  · intro p h
    simp [sp_cp_register_usock, h]

/-- Witness for C8: one fresh socket registered successfully, one
already-registered socket hitting the assertion. -/
theorem c8_witness :
    (({ domain := 2, type := 1, protocol := 6, aio := none } : SpUsock).aio =
        none ∧
      sp_cp_register_usock
          { domain := 2, type := 1, protocol := 6, aio := none } 5 =
        some { domain := 2, type := 1, protocol := 6, aio := some 5 }) ∧
      (({ domain := 2, type := 1, protocol := 6,
            aio := some 5 } : SpUsock).aio = some 5 ∧
        sp_cp_register_usock
            { domain := 2, type := 1, protocol := 6, aio := some 5 } 7 =
          none) :=
  ⟨⟨rfl, (c8_register_at_most_once _ 5).1 rfl⟩,
    ⟨rfl, (c8_register_at_most_once _ 7).2 5 rfl⟩⟩

/-- Claim C9 (confirmed).  A positive short read without the
`SP_USOCK_PARTIAL` flag falls through every return and reaches the
fatal assertion in the `async:` branch: the caller gets neither a
success nor an error code. -/
theorem c9_short_read_without_partial_asserts (len n : Nat)
    (h1 : 0 < n) (h2 : n < len) :
    sp_usock_recv len false (.bytes n) = .fatalAssert := by
  have h0 : ¬ len = 0 := by omega
  simp [sp_usock_recv, h0, Nat.ne_of_lt h2, Nat.pos_iff_ne_zero.mp h1]

/-- Witness for C9: reading 1 of 4 requested bytes. -/
theorem c9_witness :
    (0 < 1 ∧ 1 < 4) ∧ sp_usock_recv 4 false (.bytes 1) = .fatalAssert :=
  ⟨⟨by decide, by decide⟩,
    c9_short_read_without_partial_asserts 4 1 (by decide) (by decide)⟩

/-- Claim C10 (confirmed).  Frame conditions: `sp_cp_post` never moves
the head cursor and never modifies any buffer slot other than the one
at the old tail (the doubling step only appends past the old capacity);
the pop step of `sp_cp_wait` never modifies the tail cursor, the
capacity, or the items buffer. -/
theorem c10_post_wait_frame (s : SpCp) (hwf : s.WF) (op : Int) (arg : Nat) :
    (sp_cp_post s op arg).head = s.head ∧
      (∀ i, i < s.capacity → i ≠ s.tail →
        (sp_cp_post s op arg).items[i]? = s.items[i]?) ∧
      (∀ e s', sp_cp_tryPop s = some (e, s') →
        s'.tail = s.tail ∧ s'.capacity = s.capacity ∧ s'.items = s.items) := by
  obtain ⟨hc, hh, ht, hl⟩ := hwf
  rcases s with ⟨c, h, t, l, sig⟩
  simp only at hc hh ht hl ⊢
  refine ⟨?_, ?_, ?_⟩
  · by_cases hfull : h = (t + 1) % c
    · rw [sp_cp_post_eq_double c h t l sig op arg hfull]
    · rw [sp_cp_post_eq_simple c h t l sig op arg hfull]
  · intro i hi hne
    by_cases hfull : h = (t + 1) % c
    · rw [sp_cp_post_eq_double c h t l sig op arg hfull]
      dsimp only
      rw [List.getElem?_append,
        if_pos (by
          simp only [List.length_append, List.length_set, List.length_take,
            hl]
          omega),
        List.getElem?_append,
        if_pos (by simp only [List.length_set, hl]; omega),
        List.getElem?_set, if_neg (by omega)]
    · rw [sp_cp_post_eq_simple c h t l sig op arg hfull]
      dsimp only
      rw [List.getElem?_set, if_neg (by omega)]
  · intro e s' hpop
    by_cases hne2 : h = t
    · rw [sp_cp_tryPop_eq_none _ hne2] at hpop
      exact absurd hpop (by simp)
    · rw [sp_cp_tryPop_eq_some _ hne2] at hpop
      injection hpop with hpair
      injection hpair with _ hstate
      subst hstate
      exact ⟨rfl, rfl, rfl⟩

/-- Witness for C10 at the freshly initialised queue. -/
theorem c10_witness :
    sp_cp_init.WF ∧
      ((sp_cp_post sp_cp_init 3 4).head = sp_cp_init.head ∧
        (∀ i, i < sp_cp_init.capacity → i ≠ sp_cp_init.tail →
          (sp_cp_post sp_cp_init 3 4).items[i]? = sp_cp_init.items[i]?) ∧
        (∀ e s', sp_cp_tryPop sp_cp_init = some (e, s') →
          s'.tail = sp_cp_init.tail ∧ s'.capacity = sp_cp_init.capacity ∧
            s'.items = sp_cp_init.items)) :=
  ⟨sp_cp_init_WF, c10_post_wait_frame sp_cp_init sp_cp_init_WF 3 4⟩
